import Mathlib

/-!
Shallow embedding of the update-orchestration and options-resolution core of
the B3 penny-stock dashboard server (server/index.ts).

Conventions of the embedding:
* JavaScript strings are Lean String; the JavaScript relational operators on
  strings (lexicographic by code unit) are modelled by lexLe on the character
  list, and toUpperCase by mapping Char.toUpper over the character list.
* JavaScript numbers appearing as option strikes are modelled as Int.
* The on-disk snapshot files are modelled by FileState: missing (the file does
  not exist), corrupt (it exists but JSON.parse throws), or parsed.
* The module-level mutable flag updateInProgress is modelled by explicit state
  passing: each request handler is a pure function from the current flag (and
  request data) to a response plus the new flag, and the asynchronous pieces
  (the exec callback, the setInterval tick) are events of a step function.
-/

/-! ## Lexicographic string comparison (JavaScript relational operators) -/

/-- Lexicographic comparison of character lists, as JavaScript compares
strings with the relational operators. -/
def lexLe : List Char → List Char → Bool
  | [], _ => true
  | _ :: _, [] => false
  | a :: as, b :: bs => if a < b then true else if b < a then false else lexLe as bs

/-- JavaScript string comparison a less-or-equal b (b greater-or-equal a). -/
def strLeB (a b : String) : Bool := lexLe a.data b.data

/-- JavaScript toUpperCase, modelled characterwise. -/
def jsToUpper (s : String) : String := ⟨s.data.map Char.toUpper⟩

theorem lexLe_refl (as : List Char) : lexLe as as = true := by
  induction as with
  | nil => rfl
  | cons a as ih => simp [lexLe, ih]

theorem lexLe_total (as bs : List Char) : lexLe as bs = true ∨ lexLe bs as = true := by
  induction as generalizing bs with
  | nil => left; rfl
  | cons a as ih =>
    cases bs with
    | nil => right; rfl
    | cons b bs =>
      rcases lt_trichotomy a b with h | h | h
      · left; simp [lexLe, h]
      · subst h; simpa [lexLe] using ih bs
      · right; simp [lexLe, h]

theorem lexLe_trans {as bs cs : List Char} (h1 : lexLe as bs = true)
    (h2 : lexLe bs cs = true) : lexLe as cs = true := by
  induction as generalizing bs cs with
  | nil => rfl
  | cons a as ih =>
    cases bs with
    | nil => simp [lexLe] at h1
    | cons b bs =>
      cases cs with
      | nil => simp [lexLe] at h2
      | cons c cs =>
        simp only [lexLe] at h1 h2 ⊢
        rcases lt_trichotomy a b with hab | hab | hab
        · rcases lt_trichotomy b c with hbc | hbc | hbc
          · rw [if_pos (lt_trans hab hbc)]
          · subst hbc; rw [if_pos hab]
          · rw [if_neg (asymm hbc), if_pos hbc] at h2; simp at h2
        · subst hab
          rcases lt_trichotomy a c with hac | hac | hac
          · rw [if_pos hac]
          · subst hac
            rw [if_neg (lt_irrefl a), if_neg (lt_irrefl a)] at h1 h2 ⊢
            exact ih h1 h2
          · rw [if_neg (asymm hac), if_pos hac] at h2; simp at h2
        · rw [if_neg (asymm hab), if_pos hab] at h1; simp at h1

/-! ## Data model -/

/-- One derivative contract from the derivatives snapshot (data/cotahist.json).
Fields are the ones the resolver reads; other payload fields are passed
through untouched and are not modelled. -/
structure OptionRecord where
  ticker_objeto : String
  tipo : String
  vencimento : String
  strike : Option Int
deriving DecidableEq

/-- State of an on-disk snapshot file: missing, present but unparseable, or
parsed into a value. -/
inductive FileState (α : Type) where
  | missing : FileState α
  | corrupt : FileState α
  | parsed : α → FileState α
deriving DecidableEq

/-- The derivatives snapshot payload; the opcoes field may be absent
(cotahist.opcoes is defaulted to the empty list). -/
structure Cotahist where
  opcoes : Option (List OptionRecord)
deriving DecidableEq

/-! ## Options resolver (GET /api/options/:ticker) -/

/-- The filter over all options: underlying ticker uppercased equals the
(already uppercased) request ticker, and vencimento is greater-or-equal
today. -/
def matchedOpts (allOpts : List OptionRecord) (ticker today : String) : List OptionRecord :=
  allOpts.filter fun o => jsToUpper o.ticker_objeto == ticker && strLeB today o.vencimento

/-- The per-type group: the matched options of one contract type. -/
def tipoOptsFor (matched : List OptionRecord) (tipo : String) : List OptionRecord :=
  matched.filter fun o => o.tipo == tipo

/-- Ordering of vencimento dates: the JavaScript default sort on strings. -/
def vencLe (a b : String) : Prop := strLeB a b = true

instance : DecidableRel vencLe := fun a b => inferInstanceAs (Decidable (strLeB a b = true))

instance : IsTotal String vencLe := ⟨fun a b => lexLe_total a.data b.data⟩
instance : IsTrans String vencLe := ⟨fun _ _ _ => lexLe_trans⟩

/-- The nearest vencimento of a group: first element of the sorted
deduplicated list of dates, as vencimentos[0] in the handler. -/
def proximoVenc (tipoOpts : List OptionRecord) : Option String :=
  (((tipoOpts.map OptionRecord.vencimento).dedup).insertionSort vencLe).head?

/-- One iteration of the loop over CALL and PUT: if the group is empty it
contributes nothing, otherwise the records at the nearest vencimento. -/
def nearestForTipo (matched : List OptionRecord) (tipo : String) : List OptionRecord :=
  let tipoOpts := tipoOptsFor matched tipo
  match proximoVenc tipoOpts with
  | none => []
  | some proximo => tipoOpts.filter fun o => o.vencimento == proximo

/-- Ordering of the final result: the comparator (a.strike ?? 0) -
(b.strike ?? 0), an absent strike read as 0. -/
def strikeLe (a b : OptionRecord) : Prop := a.strike.getD 0 ≤ b.strike.getD 0

instance : DecidableRel strikeLe := fun a b =>
  inferInstanceAs (Decidable (a.strike.getD 0 ≤ b.strike.getD 0))

instance : IsTotal OptionRecord strikeLe := ⟨fun a b => le_total (a.strike.getD 0) (b.strike.getD 0)⟩

instance : IsTrans OptionRecord strikeLe := ⟨fun _ _ _ => le_trans⟩

/-- The body of the options handler once the snapshot is parsed: filter to
future options of the ticker, keep the nearest vencimento per type (CALL
first, then PUT), sort by strike. -/
def resolveOptions (allOpts : List OptionRecord) (ticker today : String) : List OptionRecord :=
  let matched := matchedOpts allOpts ticker today
  (nearestForTipo matched "CALL" ++ nearestForTipo matched "PUT").insertionSort strikeLe

/-- HTTP response of GET /api/options/:ticker. -/
structure OptionsResponse where
  status : Nat
  opcoes : List OptionRecord
deriving DecidableEq

/-- GET /api/options/:ticker: uppercase the path ticker; with no snapshot
file, or an unparseable one, answer the empty list; otherwise resolve. -/
def apiOptions (file : FileState Cotahist) (rawTicker today : String) : OptionsResponse :=
  let ticker := jsToUpper rawTicker
  match file with
  | FileState.missing => { status := 200, opcoes := [] }
  | FileState.corrupt => { status := 200, opcoes := [] }
  | FileState.parsed cotahist =>
      { status := 200, opcoes := resolveOptions (cotahist.opcoes.getD []) ticker today }

/-! ## Equity snapshot read path (readStocks) and GET /api/status -/

/-- The fields of public/stocks.json that the status handler reads; each is
defaulted when absent. -/
structure StocksData where
  atualizadoEm : Option String
  dataReferencia : Option String
  fonte : Option String
  totalAcoes : Option Nat
deriving DecidableEq

/-- The readStocks helper: null when the file does not exist, null when
JSON.parse throws, otherwise the parsed value. -/
def readStocks (file : FileState StocksData) : Option StocksData :=
  match file with
  | FileState.missing => none
  | FileState.corrupt => none
  | FileState.parsed d => some d

/-- Response of GET /api/status: either disponivel false with only the
updateInProgress flag, or disponivel true with the snapshot metadata. -/
inductive StatusResponse where
  | unavailable : Bool → StatusResponse
  | available : Option String → Option String → Option String → Nat → Bool → StatusResponse
deriving DecidableEq

/-- GET /api/status: read the stocks snapshot; when absent answer disponivel
false with the current updateInProgress flag, otherwise the metadata with
defaults applied. -/
def apiStatus (file : FileState StocksData) (updateInProgress : Bool) : StatusResponse :=
  match readStocks file with
  | none => StatusResponse.unavailable updateInProgress
  | some d =>
      StatusResponse.available d.atualizadoEm d.dataReferencia d.fonte
        (d.totalAcoes.getD 0) updateInProgress

/-! ## Update orchestration (POST /api/update, exec callback, setInterval) -/

/-- A JavaScript value as found at req.body?.maxPreco: absent chains to
undefined; numbers are modelled as Int. -/
inductive JSVal where
  | undef : JSVal
  | null : JSVal
  | num : Int → JSVal
  | str : String → JSVal
  | boolean : Bool → JSVal
deriving DecidableEq

/-- JavaScript truthiness of the modelled values. -/
def JSVal.truthy : JSVal → Bool
  | JSVal.undef => false
  | JSVal.null => false
  | JSVal.num n => !(n == 0)
  | JSVal.str s => !(s == "")
  | JSVal.boolean b => b

/-- The String(v) conversion of the modelled values. -/
def JSVal.toStr : JSVal → String
  | JSVal.undef => "undefined"
  | JSVal.null => "null"
  | JSVal.num n => toString n
  | JSVal.str s => s
  | JSVal.boolean b => if b then "true" else "false"

/-- Outcome of one POST /api/update request: the HTTP status, whether the
body is the success body (false means the error body), the value of
updateInProgress after the handler returned, and the argument list of the
spawned collection process when one was spawned. -/
structure PostUpdateResult where
  status : Nat
  success : Bool
  newRunning : Bool
  spawnedArgs : Option (List String)
deriving DecidableEq

/-- POST /api/update: if updateInProgress, answer 409 with an error body and
do nothing else; otherwise read maxPreco (any falsy field, the absent field
included, falls back to the default), set the guard, answer 200 success, and
spawn the collection script with the max-preco argument. -/
def postUpdate (updateInProgress : Bool) (maxPrecoField : JSVal) : PostUpdateResult :=
  if updateInProgress then
    { status := 409, success := false, newRunning := updateInProgress, spawnedArgs := none }
  else
    let maxPreco := if maxPrecoField.truthy then maxPrecoField.toStr else "10.0"
    { status := 200, success := true, newRunning := true,
      spawnedArgs := some ["--max-preco " ++ maxPreco] }

/-- Trading-hours predicate of the scheduler: 13:00 to 21:20 UTC, both ends
included. -/
def isTradinghours (utcHours utcMinutes : Nat) : Bool :=
  let total := utcHours * 60 + utcMinutes
  decide (13 * 60 ≤ total) && decide (total ≤ 21 * 60 + 20)

/-- How a finished collection process ended: exit 0, non-zero exit, or the
10-minute timeout kill. -/
inductive ExitOutcome where
  | exitSuccess : ExitOutcome
  | exitNonZero : ExitOutcome
  | exitTimeout : ExitOutcome
deriving DecidableEq

/-- The events that touch the updateInProgress flag: a manual POST
/api/update (carrying the maxPreco body field), one 30-minute tick of the
setInterval scheduler (carrying the current UTC time of day), and the exec
callback of a finished collection process. -/
inductive Event where
  | manualTrigger : JSVal → Event
  | schedTick : Nat → Nat → Event
  | processExit : ExitOutcome → Event
deriving DecidableEq

/-- Observable effect of one event: the flag afterwards, and the argument
list of a process spawned by the event, if any. -/
structure StepResult where
  running : Bool
  spawnedArgs : Option (List String)
deriving DecidableEq

/-- One step of the service state. A manual trigger behaves as postUpdate; a
scheduler tick returns at once when the flag is set or the time is outside
trading hours, and otherwise sets the flag and spawns the script with no
arguments; the exec callback clears the flag whatever the outcome was. -/
def serverStep (running : Bool) : Event → StepResult
  | Event.manualTrigger v =>
      let r := postUpdate running v
      { running := r.newRunning, spawnedArgs := r.spawnedArgs }
  | Event.schedTick utcHours utcMinutes =>
      if running || !(isTradinghours utcHours utcMinutes) then
        { running := running, spawnedArgs := none }
      else
        { running := true, spawnedArgs := some [] }
  | Event.processExit _ => { running := false, spawnedArgs := none }

/-! ## Helper lemmas about the resolver -/

theorem mem_tipoOptsFor {matched : List OptionRecord} {tipo : String} {o : OptionRecord}
    (h : o ∈ tipoOptsFor matched tipo) : o ∈ matched ∧ o.tipo = tipo := by
  rw [tipoOptsFor, List.mem_filter] at h
  exact ⟨h.1, by simpa using h.2⟩

theorem mem_matchedOpts {allOpts : List OptionRecord} {ticker today : String} {o : OptionRecord}
    (h : o ∈ matchedOpts allOpts ticker today) :
    jsToUpper o.ticker_objeto = ticker ∧ strLeB today o.vencimento = true := by
  rw [matchedOpts, List.mem_filter] at h
  have h2 := h.2
  simp only [Bool.and_eq_true, beq_iff_eq] at h2
  exact h2

theorem mem_nearestForTipo {matched : List OptionRecord} {tipo : String} {o : OptionRecord}
    (h : o ∈ nearestForTipo matched tipo) :
    o ∈ tipoOptsFor matched tipo
    ∧ proximoVenc (tipoOptsFor matched tipo) = some o.vencimento := by
  simp only [nearestForTipo] at h
  cases hp : proximoVenc (tipoOptsFor matched tipo) with
  | none => rw [hp] at h; simp at h
  | some proximo =>
    rw [hp] at h
    simp only [List.mem_filter, beq_iff_eq] at h
    exact ⟨h.1, by rw [h.2]⟩

theorem proximoVenc_min {tipoOpts : List OptionRecord} {m : String}
    (hm : proximoVenc tipoOpts = some m) :
    ∀ p ∈ tipoOpts, strLeB m p.vencimento = true := by
  intro p hp
  unfold proximoVenc at hm
  cases hE : ((tipoOpts.map OptionRecord.vencimento).dedup).insertionSort vencLe with
  | nil => rw [hE] at hm; simp at hm
  | cons x xs =>
    rw [hE] at hm
    have hxm : x = m := by simpa using hm
    have hsorted : List.Sorted vencLe (x :: xs) := by
      rw [← hE]; exact List.sorted_insertionSort vencLe _
    have hmemL : p.vencimento ∈ x :: xs := by
      rw [← hE, List.mem_insertionSort]
      exact List.mem_dedup.mpr (List.mem_map_of_mem OptionRecord.vencimento hp)
    subst hxm
    rcases List.mem_cons.mp hmemL with heq | hmem
    · rw [heq]; exact lexLe_refl _
    · exact (List.sorted_cons.mp hsorted).1 _ hmem

theorem mem_resolveOptions {allOpts : List OptionRecord} {ticker today : String}
    {o : OptionRecord} (h : o ∈ resolveOptions allOpts ticker today) :
    o ∈ nearestForTipo (matchedOpts allOpts ticker today) "CALL"
    ∨ o ∈ nearestForTipo (matchedOpts allOpts ticker today) "PUT" := by
  simp only [resolveOptions] at h
  rw [List.mem_insertionSort, List.mem_append] at h
  exact h

/-! ## Claim theorems -/

/-- Claim C1: at most one regeneration runs at any instant. When the guard is
set, neither a manual trigger nor a scheduler tick spawns a process or
changes the guard; a manual trigger from the idle state sets the guard; and
the exec callback of a finished process, whatever its outcome (exit 0,
non-zero exit, or the timeout kill), clears the guard and spawns nothing, so
after every completed regeneration the guard is false again. -/
theorem serverStep_single_flight (v : JSVal) (utcHours utcMinutes : Nat) (s : Bool)
    (o : ExitOutcome) :
    (serverStep true (Event.manualTrigger v)).running = true
    ∧ (serverStep true (Event.manualTrigger v)).spawnedArgs = none
    ∧ (serverStep true (Event.schedTick utcHours utcMinutes)).running = true
    ∧ (serverStep true (Event.schedTick utcHours utcMinutes)).spawnedArgs = none
    ∧ (serverStep false (Event.manualTrigger v)).running = true
    ∧ (serverStep s (Event.processExit o)).running = false
    ∧ (serverStep s (Event.processExit o)).spawnedArgs = none :=
  ⟨rfl, rfl, rfl, rfl, rfl, rfl, rfl⟩

/-- Claim C2: POST /api/update while the guard is set answers 409 with the
error body, leaves the guard (the whole update state of the code) unchanged
and spawns nothing; from the idle state it answers 200 with the success body
and the guard becomes true. -/
theorem postUpdate_busy_and_accept (v : JSVal) :
    (postUpdate true v).status = 409
    ∧ (postUpdate true v).success = false
    ∧ (postUpdate true v).newRunning = true
    ∧ (postUpdate true v).spawnedArgs = none
    ∧ (postUpdate false v).status = 200
    ∧ (postUpdate false v).success = true
    ∧ (postUpdate false v).newRunning = true :=
  ⟨rfl, rfl, rfl, rfl, rfl, rfl, rfl⟩

/-- Claim C3: each record of the resolver result is typed CALL or PUT; a
CALL-typed record belongs to the CALL group of the matched future options
and its vencimento is the date selected for that group, below-or-equal every
vencimento of the group, and likewise for PUT, the two groups being handled
independently. -/
theorem resolveOptions_nearest_per_side (allOpts : List OptionRecord) (ticker today : String)
    (o : OptionRecord) (ho : o ∈ resolveOptions allOpts ticker today) :
    (o.tipo = "CALL" ∨ o.tipo = "PUT")
    ∧ (o.tipo = "CALL" →
        o ∈ tipoOptsFor (matchedOpts allOpts ticker today) "CALL"
        ∧ proximoVenc (tipoOptsFor (matchedOpts allOpts ticker today) "CALL")
            = some o.vencimento
        ∧ ∀ p ∈ tipoOptsFor (matchedOpts allOpts ticker today) "CALL",
            strLeB o.vencimento p.vencimento = true)
    ∧ (o.tipo = "PUT" →
        o ∈ tipoOptsFor (matchedOpts allOpts ticker today) "PUT"
        ∧ proximoVenc (tipoOptsFor (matchedOpts allOpts ticker today) "PUT")
            = some o.vencimento
        ∧ ∀ p ∈ tipoOptsFor (matchedOpts allOpts ticker today) "PUT",
            strLeB o.vencimento p.vencimento = true) := by
  rcases mem_resolveOptions ho with h | h
  · obtain ⟨hgrp, hprox⟩ := mem_nearestForTipo h
    have htipo : o.tipo = "CALL" := (mem_tipoOptsFor hgrp).2
    refine ⟨Or.inl htipo, fun _ => ⟨hgrp, hprox, fun p hp => proximoVenc_min hprox p hp⟩, ?_⟩
    intro hput
    exact absurd (htipo.symm.trans hput) (by decide)
  · obtain ⟨hgrp, hprox⟩ := mem_nearestForTipo h
    have htipo : o.tipo = "PUT" := (mem_tipoOptsFor hgrp).2
    refine ⟨Or.inr htipo, ?_, fun _ => ⟨hgrp, hprox, fun p hp => proximoVenc_min hprox p hp⟩⟩
    intro hcall
    exact absurd (htipo.symm.trans hcall) (by decide)

/-- Example derivatives used to instantiate claim C3: two CALLs with distinct
vencimentos and one PUT whose nearest vencimento differs from the CALL
one. -/
def c3Opts : List OptionRecord :=
  [⟨"AAAA3", "CALL", "2026-01-16", some 5⟩,
   ⟨"AAAA3", "CALL", "2026-02-20", some 6⟩,
   ⟨"AAAA3", "PUT", "2026-03-20", some 4⟩]

/-- Witness for claim C3: on c3Opts the resolver keeps the nearest CALL at
2026-01-16 and the nearest PUT at 2026-03-20, two different dates. -/
theorem resolveOptions_nearest_per_side_witness :
    (⟨"AAAA3", "CALL", "2026-01-16", some 5⟩ : OptionRecord)
      ∈ resolveOptions c3Opts "AAAA3" "2026-01-01"
    ∧ proximoVenc (tipoOptsFor (matchedOpts c3Opts "AAAA3" "2026-01-01") "CALL")
        = some "2026-01-16"
    ∧ (⟨"AAAA3", "PUT", "2026-03-20", some 4⟩ : OptionRecord)
      ∈ resolveOptions c3Opts "AAAA3" "2026-01-01"
    ∧ proximoVenc (tipoOptsFor (matchedOpts c3Opts "AAAA3" "2026-01-01") "PUT")
        = some "2026-03-20" := by
  have hc : (⟨"AAAA3", "CALL", "2026-01-16", some 5⟩ : OptionRecord)
      ∈ resolveOptions c3Opts "AAAA3" "2026-01-01" := by decide
  have hp : (⟨"AAAA3", "PUT", "2026-03-20", some 4⟩ : OptionRecord)
      ∈ resolveOptions c3Opts "AAAA3" "2026-01-01" := by decide
  refine ⟨hc, ?_, hp, ?_⟩
  · exact ((resolveOptions_nearest_per_side c3Opts "AAAA3" "2026-01-01" _ hc).2.1 rfl).2.1
  · exact ((resolveOptions_nearest_per_side c3Opts "AAAA3" "2026-01-01" _ hp).2.2 rfl).2.1

/-- Claim C4: every record answered by GET /api/options/:ticker has an
underlying ticker that, uppercased, equals the full uppercased request
ticker, and a vencimento greater-or-equal today; this holds for every
request ticker, shorter than 4 characters included, the prefix playing no
role. -/
theorem apiOptions_exact_ticker_and_future (c : Cotahist) (rawTicker today : String)
    (o : OptionRecord)
    (ho : o ∈ (apiOptions (FileState.parsed c) rawTicker today).opcoes) :
    jsToUpper o.ticker_objeto = jsToUpper rawTicker ∧ strLeB today o.vencimento = true := by
  have ho2 : o ∈ resolveOptions (c.opcoes.getD []) (jsToUpper rawTicker) today := ho
  rcases mem_resolveOptions ho2 with h | h
  all_goals
    exact mem_matchedOpts (mem_tipoOptsFor (mem_nearestForTipo h).1).1

/-- Example derivatives used to instantiate claim C4: a matching future CALL
on a 3-character ticker, a contract of another underlying, and a past-dated
contract of the same underlying. -/
def c4Opts : List OptionRecord :=
  [⟨"AB1", "CALL", "2026-01-16", some 5⟩,
   ⟨"ZZZZ9", "CALL", "2026-01-16", some 5⟩,
   ⟨"AB1", "PUT", "2025-01-01", some 3⟩]

/-- Witness for claim C4: the request ticker ab1 is shorter than 4
characters and the returned record still matches it exactly and is not
past-dated. -/
theorem apiOptions_exact_ticker_and_future_witness :
    (⟨"AB1", "CALL", "2026-01-16", some 5⟩ : OptionRecord)
      ∈ (apiOptions (FileState.parsed { opcoes := some c4Opts }) "ab1" "2026-01-01").opcoes
    ∧ jsToUpper "AB1" = jsToUpper "ab1" ∧ strLeB "2026-01-01" "2026-01-16" = true := by
  have hmem : (⟨"AB1", "CALL", "2026-01-16", some 5⟩ : OptionRecord)
      ∈ (apiOptions (FileState.parsed { opcoes := some c4Opts }) "ab1" "2026-01-01").opcoes := by
    decide
  exact ⟨hmem, apiOptions_exact_ticker_and_future { opcoes := some c4Opts } "ab1" "2026-01-01" _ hmem⟩

/-- Claim C5, amended: the resolver result is sorted non-decreasing by
strike with an absent strike read as 0, as the comparator of the code
defaults it, not as the lowest possible value. -/
theorem resolveOptions_sorted_by_strike (allOpts : List OptionRecord) (ticker today : String) :
    List.Sorted strikeLe (resolveOptions allOpts ticker today) :=
  List.sorted_insertionSort strikeLe _

/-- Modelled from the words of claim C5: the order on records in which an
absent strike is the lowest possible value, below every present strike. -/
def specStrikeLowestB (a b : OptionRecord) : Bool :=
  match a.strike, b.strike with
  | none, _ => true
  | some _, none => false
  | some x, some y => decide (x ≤ y)

/-- Example derivatives used to refute claim C5 as stated: two matched CALLs
at the same vencimento, one with strike -1 and one with no strike. -/
def c5Opts : List OptionRecord :=
  [⟨"AAAA3", "CALL", "2026-01-16", some (-1)⟩,
   ⟨"AAAA3", "CALL", "2026-01-16", none⟩]

/-- Counterexample to claim C5 as stated: the code defaults an absent strike
to 0 in the sort comparator, so the record with strike -1 comes before the
absent-strike record and the result is not sorted in the order that treats
an absent strike as the lowest possible value. -/
theorem resolveOptions_absent_strike_not_lowest :
    ¬ List.Sorted (fun a b => specStrikeLowestB a b = true)
      (resolveOptions c5Opts "AAAA3" "2026-01-01") := by decide

/-- Claim C6: GET /api/options/:ticker never answers an error. Every
response carries status 200; a missing snapshot file, an unparseable one,
and a parsed one in which no contract matches the ticker all produce the
empty options list. -/
theorem apiOptions_never_error (file : FileState Cotahist) (rawTicker today : String)
    (c : Cotahist)
    (hempty : matchedOpts (c.opcoes.getD []) (jsToUpper rawTicker) today = []) :
    (apiOptions file rawTicker today).status = 200
    ∧ apiOptions FileState.missing rawTicker today = { status := 200, opcoes := [] }
    ∧ apiOptions FileState.corrupt rawTicker today = { status := 200, opcoes := [] }
    ∧ apiOptions (FileState.parsed c) rawTicker today = { status := 200, opcoes := [] } := by
  refine ⟨?_, rfl, rfl, ?_⟩
  · cases file <;> rfl
  · have hres : resolveOptions (c.opcoes.getD []) (jsToUpper rawTicker) today = [] := by
      unfold resolveOptions
      rw [hempty]
      rfl
    show OptionsResponse.mk 200 (resolveOptions (c.opcoes.getD []) (jsToUpper rawTicker) today)
        = { status := 200, opcoes := [] }
    rw [hres]

/-- Derivatives snapshot used to instantiate claim C6: one contract of some
other underlying, so the request ticker matches nothing. -/
def c6Cotahist : Cotahist := { opcoes := some [⟨"VALE3", "CALL", "2026-01-16", some 5⟩] }

/-- Witness for claim C6: a parsed snapshot in which nothing matches the
ticker still gives the successful empty response. -/
theorem apiOptions_never_error_witness :
    matchedOpts (c6Cotahist.opcoes.getD []) (jsToUpper "petr4") "2026-01-01" = []
    ∧ apiOptions (FileState.parsed c6Cotahist) "petr4" "2026-01-01"
        = { status := 200, opcoes := [] } := by
  have h : matchedOpts (c6Cotahist.opcoes.getD []) (jsToUpper "petr4") "2026-01-01" = [] := by
    decide
  exact ⟨h,
    (apiOptions_never_error (FileState.parsed c6Cotahist) "petr4" "2026-01-01" c6Cotahist h).2.2.2⟩

/-- Claim C7: the equity-snapshot read gives the same absent result for a
missing file and for an unparseable one, and being a total function it never
raises; a parsed file gives its value, so absence always means missing or
corrupt, indistinguishably. -/
theorem readStocks_corrupt_eq_missing (d : StocksData) :
    readStocks FileState.missing = none
    ∧ readStocks FileState.corrupt = none
    ∧ readStocks FileState.corrupt = readStocks FileState.missing
    ∧ readStocks (FileState.parsed d) = some d :=
  ⟨rfl, rfl, rfl, rfl⟩

/-- Claim C8: GET /api/status is a total function, so it answers for every
on-disk state and flag; when the snapshot is missing or unparseable the
answer is the unavailable view, which carries exactly the current
updateInProgress flag and no snapshot metadata; in every case the answer
carries the current flag. -/
theorem apiStatus_absent_and_total (u : Bool) (f : FileState StocksData) :
    apiStatus FileState.missing u = StatusResponse.unavailable u
    ∧ apiStatus FileState.corrupt u = StatusResponse.unavailable u
    ∧ (apiStatus f u = StatusResponse.unavailable u
        ∨ ∃ a b c t, apiStatus f u = StatusResponse.available a b c t u) := by
  refine ⟨rfl, rfl, ?_⟩
  cases f with
  | missing => exact Or.inl rfl
  | corrupt => exact Or.inl rfl
  | parsed d => exact Or.inr ⟨_, _, _, _, rfl⟩

/-- Claim C9: a scheduler tick spawns a scheduled run exactly when the guard
is clear and the UTC time of day lies between 13:00 and 21:20, both ends
included; at 22:00 UTC it neither spawns nor changes the guard. -/
theorem schedTick_fires_iff_window (running : Bool) (utcHours utcMinutes : Nat) :
    ((serverStep running (Event.schedTick utcHours utcMinutes)).spawnedArgs).isSome
      = (!running && (decide (13 * 60 ≤ utcHours * 60 + utcMinutes)
          && decide (utcHours * 60 + utcMinutes ≤ 21 * 60 + 20)))
    ∧ (serverStep running (Event.schedTick 22 0)).spawnedArgs = none
    ∧ (serverStep running (Event.schedTick 22 0)).running = running := by
  cases running with
  | true => exact ⟨rfl, rfl, rfl⟩
  | false =>
    refine ⟨?_, rfl, rfl⟩
    simp only [serverStep, isTradinghours, Bool.false_or, Bool.not_true, Bool.not_false]
    cases h1 : decide (13 * 60 ≤ utcHours * 60 + utcMinutes) <;>
      cases h2 : decide (utcHours * 60 + utcMinutes ≤ 21 * 60 + 20) <;>
      simp [h1, h2]

/-- Claim C10: an accepted POST /api/update passes --max-preco with the
default 10.0 whenever the maxPreco body field is falsy, absence, null, 0 and
the empty string included; a truthy field is stringified and passed through;
a scheduled run spawns the script with no arguments at all. -/
theorem maxPreco_default_on_falsy (v : JSVal) :
    (postUpdate false v).spawnedArgs
      = some ["--max-preco " ++ (if v.truthy then v.toStr else "10.0")]
    ∧ (postUpdate false JSVal.undef).spawnedArgs = some ["--max-preco 10.0"]
    ∧ (postUpdate false JSVal.null).spawnedArgs = some ["--max-preco 10.0"]
    ∧ (postUpdate false (JSVal.num 0)).spawnedArgs = some ["--max-preco 10.0"]
    ∧ (postUpdate false (JSVal.str "")).spawnedArgs = some ["--max-preco 10.0"]
    ∧ (postUpdate false (JSVal.num 7)).spawnedArgs = some ["--max-preco 7"]
    ∧ (postUpdate false (JSVal.str "5.5")).spawnedArgs = some ["--max-preco 5.5"]
    ∧ (serverStep false (Event.schedTick 13 0)).spawnedArgs = some [] := by
  refine ⟨rfl, ?_, ?_, ?_, ?_, ?_, ?_, ?_⟩ <;> decide
